import Mathlib

set_option maxRecDepth 16384

/-!
Verification development for the privacy flagging pipeline implemented in
`.privateclaw/.scripts/privateclaw/flag.py`.

The Python functions are shallowly embedded as Lean definitions:

* machine integers are modelled as `Int` (Python integers are unbounded, so no
  wrap-around is needed);
* Python lists are Lean `List`s; Python string content is manipulated through
  the underlying character list (`String.data`), which matches the code-point
  semantics of Python `str`;
* code that can raise an exception is modelled in `Except String`, the error
  string naming the Python exception class;
* the possibly non-terminating `while` loop of `chunk_lines` is modelled with
  explicit fuel: the value `none` means the loop has not terminated within the
  given number of iterations (for every fuel value).
-/

/-! ### Python primitive semantics -/

/-- Whitespace test matching the character class used by Python `str.strip`
and by the regular expression class `\s` on the inputs relevant here. -/
def isPyWs (c : Char) : Bool :=
  c = ' ' || c = '\t' || c = '\n' || c = '\r'

/-- Python `str.strip()` on the character list of a string. -/
def pyStripChars (l : List Char) : List Char :=
  ((l.dropWhile isPyWs).reverse.dropWhile isPyWs).reverse

/-- Python `str.strip()`. -/
def pyStrip (s : String) : String :=
  String.mk (pyStripChars s.data)

/-- Python `text.split(sep)` for a single separator character, on character
lists. `split` always returns at least one piece. -/
def pySplitChar (c : Char) : List Char → List String
  | [] => [""]
  | x :: xs =>
    let rest := pySplitChar c xs
    if x = c then
      "" :: rest
    else
      match rest with
      | [] => [String.mk [x]]
      | r :: rs => String.mk (x :: r.data) :: rs

/-- Python `text.split("\n")`. -/
def pySplitNl (s : String) : List String :=
  pySplitChar '\n' s.data

/-- Python `"\n".join(lines)`. -/
def joinNl (lines : List String) : String :=
  String.intercalate "\n" lines

/-- Python slicing `xs[a:b]` with possibly negative bounds. -/
def pySlice (xs : List String) (a b : Int) : List String :=
  let n : Int := xs.length
  let lo : Nat := (if a < 0 then max 0 (n + a) else min a n).toNat
  let hi : Nat := (if b < 0 then max 0 (n + b) else min b n).toNat
  (xs.take hi).drop lo

/-- Python `list.insert(i, x)`: a negative index counts from the end, and the
index is then clamped into `[0, len]`. -/
def pyInsert (xs : List α) (i : Int) (x : α) : List α :=
  let n : Int := xs.length
  let idx : Nat := (if i < 0 then max 0 (n + i) else min i n).toNat
  List.insertIdx idx x xs

/-- Python `int(s)` on a string: surrounding whitespace, an optional sign and
a nonempty digit run; anything else raises `ValueError`. -/
def strToInt? (s : String) : Option Int :=
  let l := pyStripChars s.data
  let (sign, digits) :=
    match l with
    | '-' :: rest => ((-1 : Int), rest)
    | '+' :: rest => ((1 : Int), rest)
    | rest => ((1 : Int), rest)
  if digits = [] then none
  else if digits.all Char.isDigit then
    some (sign * (digits.foldl (fun acc c => acc * 10 + (c.toNat - '0'.toNat)) 0 : Nat))
  else none

/-! ### JSON values

Values produced by `json.loads`. Number literals are modelled as (optionally
signed) integers; fraction and exponent forms do not occur in any input
considered here and are outside the model. -/

inductive JValue where
  | jnull : JValue
  | jbool : Bool → JValue
  | jint : Int → JValue
  | jstr : String → JValue
  | jarr : List JValue → JValue
  | jobj : List (String × JValue) → JValue

/-- Python `dict.get(k)` on a parsed JSON object: `none` when the key is
missing, an error (`AttributeError`) when the value is not a dict at all.
Duplicate keys keep the last binding, as `json.loads` does. -/
def pyDictGet (v : JValue) (k : String) : Except String (Option JValue) :=
  match v with
  | .jobj fields => .ok ((fields.reverse.find? (fun p => p.1 == k)).map (·.2))
  | _ => .error "AttributeError"

/-- Python `dict.get(k, default)`. -/
def pyDictGetD (v : JValue) (k : String) (d : JValue) : Except String JValue :=
  match pyDictGet v k with
  | .ok (some x) => .ok x
  | .ok none => .ok d
  | .error e => .error e

/-- Coerce a JSON value that is used as a Python string (for example by
calling `.strip()` on it): any non-string raises `AttributeError`. -/
def asPyStr (v : JValue) : Except String String :=
  match v with
  | .jstr s => .ok s
  | _ => .error "AttributeError"

/-- Python `int(x)` on a JSON value; booleans convert to 0/1, numeric strings
are parsed, anything else raises (`TypeError`/`ValueError`). -/
def pyInt (v : JValue) : Except String Int :=
  match v with
  | .jint n => .ok n
  | .jbool b => .ok (if b then 1 else 0)
  | .jstr s =>
    match strToInt? s with
    | some n => .ok n
    | none => .error "ValueError"
  | _ => .error "TypeError"

/-! ### The chunker (`chunk_lines`, flag.py lines 72-86)

The `while` loop is modelled with fuel; `none` means the loop did not finish
within `fuel` iterations. -/

/-- One modelling of the loop body of `chunk_lines`: while `start < len(lines)`
compute `end = min(start + chunk_size, len(lines))`, emit the slice, stop when
`end >= len(lines)`, otherwise continue from `end - overlap`. -/
def chunk_lines_aux (lines : List String) (chunk_size overlap : Int) :
    Nat → Int → Option (List (Int × List String))
  | 0, _ => none
  | fuel + 1, start =>
    if start < (lines.length : Int) then
      let e := min (start + chunk_size) (lines.length : Int)
      let w := (start, pySlice lines start e)
      if (lines.length : Int) ≤ e then some [w]
      else
        match chunk_lines_aux lines chunk_size overlap fuel (e - overlap) with
        | none => none
        | some rest => some (w :: rest)
    else some []

/-- Python `chunk_lines(lines, chunk_size, overlap)`. -/
def chunk_lines (lines : List String) (chunk_size overlap : Int) (fuel : Nat) :
    Option (List (Int × List String)) :=
  if (lines.length : Int) ≤ chunk_size then some [(0, lines)]
  else chunk_lines_aux lines chunk_size overlap fuel 0

/-! ### A model of `json.loads`

Recursive-descent parser over the character list, with fuel (the input length
plus one always suffices, since every step consumes at least one character).
It accepts the JSON subset exercised by this program: null, booleans, integer
numbers, strings with the common escapes, arrays and objects. -/

/-- JSON whitespace skipping. -/
def skipJsonWs (l : List Char) : List Char :=
  l.dropWhile isPyWs

/-- Parse a JSON string body after the opening quote; returns the decoded
characters and the remaining input after the closing quote. -/
def parseJsonString : Nat → List Char → Option (List Char × List Char)
  | 0, _ => none
  | _, [] => none
  | _ + 1, '"' :: rest => some ([], rest)
  | fuel + 1, '\\' :: c :: rest =>
    let decoded : Option Char :=
      if c = '"' then some '"'
      else if c = '\\' then some '\\'
      else if c = '/' then some '/'
      else if c = 'n' then some '\n'
      else if c = 't' then some '\t'
      else if c = 'r' then some '\r'
      else none
    match decoded with
    | none => none
    | some d =>
      match parseJsonString fuel rest with
      | none => none
      | some (s, rem) => some (d :: s, rem)
  | fuel + 1, c :: rest =>
    if c = '\\' then none
    else
      match parseJsonString fuel rest with
      | none => none
      | some (s, rem) => some (c :: s, rem)

/-- Parse the digit run of a JSON integer. -/
def parseJsonDigits (l : List Char) : Option (Int × List Char) :=
  let digits := l.takeWhile Char.isDigit
  let rest := l.dropWhile Char.isDigit
  if digits = [] then none
  else
    -- fraction and exponent forms are outside the model
    match rest with
    | '.' :: _ => none
    | 'e' :: _ => none
    | 'E' :: _ => none
    | _ =>
      some ((digits.foldl (fun acc c => acc * 10 + (c.toNat - '0'.toNat)) 0 : Nat), rest)

mutual

/-- Parse one JSON value from the front of the input. -/
def parseJsonValue : Nat → List Char → Option (JValue × List Char)
  | 0, _ => none
  | fuel + 1, l =>
    match skipJsonWs l with
    | 'n' :: 'u' :: 'l' :: 'l' :: rest => some (.jnull, rest)
    | 't' :: 'r' :: 'u' :: 'e' :: rest => some (.jbool true, rest)
    | 'f' :: 'a' :: 'l' :: 's' :: 'e' :: rest => some (.jbool false, rest)
    | '"' :: rest =>
      match parseJsonString (rest.length + 1) rest with
      | none => none
      | some (s, rem) => some (.jstr (String.mk s), rem)
    | '-' :: rest =>
      match parseJsonDigits rest with
      | none => none
      | some (n, rem) => some (.jint (-n), rem)
    | '[' :: rest =>
      (match skipJsonWs rest with
      | ']' :: rem => some (.jarr [], rem)
      | _ =>
        match parseJsonArrayItems fuel rest with
        | none => none
        | some (xs, rem) => some (.jarr xs, rem))
    | '{' :: rest =>
      (match skipJsonWs rest with
      | '}' :: rem => some (.jobj [], rem)
      | _ =>
        match parseJsonObjectItems fuel rest with
        | none => none
        | some (fs, rem) => some (.jobj fs, rem))
    | c :: rest =>
      if c.isDigit then
        match parseJsonDigits (c :: rest) with
        | none => none
        | some (n, rem) => some (.jint n, rem)
      else none
    | [] => none

/-- Parse the comma-separated items of a nonempty JSON array, including the
closing bracket. -/
def parseJsonArrayItems : Nat → List Char → Option (List JValue × List Char)
  | 0, _ => none
  | fuel + 1, l =>
    match parseJsonValue fuel l with
    | none => none
    | some (v, rem) =>
      match skipJsonWs rem with
      | ',' :: rest =>
        match parseJsonArrayItems fuel rest with
        | none => none
        | some (vs, rem2) => some (v :: vs, rem2)
      | ']' :: rest => some ([v], rest)
      | _ => none

/-- Parse the comma-separated members of a nonempty JSON object, including the
closing brace. -/
def parseJsonObjectItems : Nat → List Char → Option (List (String × JValue) × List Char)
  | 0, _ => none
  | fuel + 1, l =>
    match skipJsonWs l with
    | '"' :: rest =>
      match parseJsonString (rest.length + 1) rest with
      | none => none
      | some (k, rem) =>
        match skipJsonWs rem with
        | ':' :: rest2 =>
          match parseJsonValue fuel rest2 with
          | none => none
          | some (v, rem2) =>
            match skipJsonWs rem2 with
            | ',' :: rest3 =>
              match parseJsonObjectItems fuel rest3 with
              | none => none
              | some (fs, rem3) => some ((String.mk k, v) :: fs, rem3)
            | '}' :: rest3 => some ([(String.mk k, v)], rest3)
            | _ => none
        | _ => none
    | _ => none

end

/-- Literal marker text from flag.py line 217. -/
def START_MARKER : String := "----PRIVATE (START)----"

/-- Literal marker text from flag.py line 218. -/
def END_MARKER : String := "----PRIVATE (END)----"

/-- The fixed header emitted when nothing was flagged (flag.py lines 167-177). -/
def no_flags_header : String :=
  "---\n## Privacy Screening Summary\n\n**Status:** ✓ No sensitive content detected\n\nThis file has been automatically screened for privacy-sensitive content.\nNo items were flagged for review.\n\n---\n\n"

/-- The reason-collection loop of `build_summary_header` (flag.py lines
180-184): strip each reason, append nonempty first occurrences at the end of
the accumulator. Calling `.strip()` raises when the reason value is not a
string. -/
def collectReasonsAcc (acc : List String) : List JValue → Except String (List String)
  | [] => .ok acc
  | entry :: rest => do
    let rv ← pyDictGetD entry "reason" (.jstr "")
    let rs ← asPyStr rv
    let reason := pyStrip rs
    if reason ≠ "" ∧ ¬ reason ∈ acc then
      collectReasonsAcc (acc ++ [reason]) rest
    else
      collectReasonsAcc acc rest

/-- Render `f"{i}. {reason}\n"` lines from `enumerate(reasons, 1)`. -/
def reasonLines (reasons : List String) : String :=
  String.join ((reasons.enumFrom 1).map (fun p => toString p.1 ++ ". " ++ p.2 ++ "\n"))

/-- Python `build_summary_header(flagged_ranges)`. -/
def build_summary_header (flagged_ranges : List JValue) : Except String String := do
  let count := flagged_ranges.length
  if count = 0 then
    return no_flags_header
  let reasons ← collectReasonsAcc [] flagged_ranges
  let items_word := if count = 1 then "item" else "items"
  let header :=
    "---\n## Privacy Screening Summary\n\n**Status:** ⚠️ " ++ toString count ++ " " ++
      items_word ++ " flagged for review\n\n"
  let header :=
    if reasons ≠ [] then header ++ "**Flagged content:**\n" ++ reasonLines reasons ++ "\n"
    else header
  return header ++
    "Look for `----PRIVATE (START)----` markers below to find flagged sections.\nReview and redact sensitive content before moving to OPENCLAW folder.\n\n---\n\n"

/-! ### Span resolution and merging (`insert_flags_by_lines`, flag.py lines 209-263) -/

/-- A resolved flagged range: 0-indexed start line, end line, reason text.
The reason is kept as a string: the summary header, which the function builds
first, has already applied `.strip()` to every reason value, so a non-string
reason raises there before this loop runs. -/
abbrev FlagRange := Int × Int × String

/-- One iteration of the validation loop (flag.py lines 222-238): fetch
`start_line`, `end_line` and `reason`, skip the entry when a line number is
missing, otherwise convert with `int(...)` (which can raise) and clamp. -/
def resolveEntry (numLines : Nat) (entry : JValue) : Except String (Option FlagRange) := do
  let startv ← pyDictGet entry "start_line"
  let endv ← pyDictGet entry "end_line"
  let reasonv ← pyDictGetD entry "reason" (.jstr "")
  let reason ← asPyStr reasonv
  match startv, endv with
  | some sv, some ev => do
    let s ← pyInt sv
    let e ← pyInt ev
    let start_idx := max 0 (min (s - 1) ((numLines : Int) - 1))
    let end_idx := max start_idx (min (e - 1) ((numLines : Int) - 1))
    return some (start_idx, end_idx, reason)
  | _, _ => return none

/-- The whole validation loop: collect the resolved ranges in order. -/
def collectRanges (numLines : Nat) : List JValue → Except String (List FlagRange)
  | [] => .ok []
  | entry :: rest => do
    let r ← resolveEntry numLines entry
    let tail ← collectRanges numLines rest
    match r with
    | some rng => pure (rng :: tail)
    | none => pure tail

/-- Python tuple comparison `(start, end, reason) <= ...` as used by
`ranges.sort()`: lexicographic on the components, strings compared
lexicographically by code point. -/
def pyRangeLe (a b : FlagRange) : Bool :=
  decide (a.1 < b.1) ||
    (decide (a.1 = b.1) &&
      (decide (a.2.1 < b.2.1) ||
        (decide (a.2.1 = b.2.1) && decide (a.2.2 ≤ b.2.2))))

/-- Reason combination when two ranges merge (flag.py lines 249-251): append
the new reason when it is nonempty and not already a substring (Python `in`)
of the running reason. -/
def combineReason (prev r : String) : String :=
  if r ≠ "" ∧ ¬ r.data <:+: prev.data then
    (if prev ≠ "" then prev ++ "; " ++ r else r)
  else prev

/-- The merge loop (flag.py lines 245-254), written as direct recursion: the
running span absorbs the next range when its start is at most the running end
plus one, otherwise the running span is emitted and the next range takes over. -/
def mergeRangesAux (cur : FlagRange) : List FlagRange → List FlagRange
  | [] => [cur]
  | (s, e, r) :: rest =>
    if s ≤ cur.2.1 + 1 then
      mergeRangesAux (cur.1, max cur.2.1 e, combineReason cur.2.2 r) rest
    else
      cur :: mergeRangesAux (s, e, r) rest

/-- Python lines 244-254: `merged = [ranges[0]]` followed by the loop over
`ranges[1:]`. -/
def mergeRanges : List FlagRange → List FlagRange
  | [] => []
  | x :: rest => mergeRangesAux x rest

/-- The marker insertion loop (flag.py lines 257-261): walk the merged spans
from the last to the first, inserting the END marker line after the span and
the START marker line before it. -/
def insertMarkers (lines : List String) (merged : List FlagRange) : List String :=
  merged.reverse.foldl
    (fun acc rng =>
      let reasonText := if rng.2.2 ≠ "" then " (" ++ rng.2.2 ++ ")" else ""
      pyInsert (pyInsert acc (rng.2.1 + 1) (END_MARKER ++ reasonText)) rng.1 START_MARKER)
    lines

/-- Python `insert_flags_by_lines(lines, flagged_ranges)` (flag.py lines
209-263). Errors model exceptions raised inside the function. -/
def insert_flags_by_lines (lines : List String) (flagged_ranges : List JValue) :
    Except String String := do
  let summary ← build_summary_header flagged_ranges
  if flagged_ranges.isEmpty then
    return summary ++ joinNl lines
  let ranges ← collectRanges lines.length flagged_ranges
  if ranges = [] then
    return summary ++ joinNl lines
  let sorted := ranges.mergeSort pyRangeLe
  let merged := mergeRanges sorted
  return summary ++ joinNl (insertMarkers lines merged)

/-! ### The driver loop (`main`, flag.py lines 340-363)

Only the control flow relevant to failure isolation is modelled: per file,
`flag_file` begins by reading the file (`file_path.read_text`, flag.py line
268); there is no try/except between that call and the `for` loop of `main`,
so a raised exception propagates and ends the loop. A document is modelled as
`Option String` (`none` = the file cannot be read or decoded); the processing
applied after a successful read is abstracted as a function on the text. -/

/-- Model of `file_path.read_text(encoding="utf-8")`: raises `OSError` or
`UnicodeDecodeError` when the document cannot be opened or decoded. -/
def read_text (doc : Option String) : Except String String :=
  match doc with
  | some t => .ok t
  | none => .error "UnicodeDecodeError"

/-- The `for file_path in files` loop of `main`: process files in order, where
processing a file first reads it; any exception propagates out of the loop. -/
def run_main (process : String → String) (docs : List (Option String)) :
    Except String (List String) :=
  match docs with
  | [] => .ok []
  | d :: rest => do
    let text ← read_text d
    let out := process text
    let outs ← run_main process rest
    return out :: outs

/-- A line of the annotated body that was inserted by the annotator: either
exactly the START marker, or a line beginning with the END marker (the END
marker may carry a parenthesised reason suffix). -/
def isMarkerLine (l : String) : Bool :=
  l == START_MARKER || END_MARKER.data.isPrefixOf l.data

/-- The annotated document at line level: the header lines (the header string
ends with a newline, so the final empty split piece is dropped) followed by
the body produced by the marker-insertion loop of `insert_flags_by_lines`. -/
def annotateDoc (header : String) (lines : List String) (merged : List FlagRange) :
    List String :=
  (pySplitNl header).dropLast ++ insertMarkers lines merged

/-- Modelled from the spec: the source repository has no stripping routine, so
the inverse direction of the round-trip property — "stripping the markers and
header back out" — is taken from the spec text: remove the header lines and
every marker line. -/
def stripAnnotations (header : String) (doc : List String) : List String :=
  (doc.drop ((pySplitNl header).dropLast.length)).filter (fun l => !(isMarkerLine l))

/-- A line index is covered by a list of ranges when it lies inside one of
them. -/
def Covers (l : List FlagRange) (k : Int) : Prop :=
  ∃ sp ∈ l, sp.1 ≤ k ∧ k ≤ sp.2.1

/-! ### Claim C1: read failures and the driver loop -/

/-- C1: the spec requires that a document which cannot be opened or decoded is
skipped and the run continues with the next document. The code has no
try/except around the `file_path.read_text` call made by `flag_file`, so the
exception propagates out of the `for` loop of `main`: with an unreadable
document at the head of the file list, the run aborts and none of the
remaining files is processed, whatever they contain — while the same loop on a
readable file processes it normally. -/
theorem read_failure_aborts_run :
    (∀ (process : String → String) (rest : List (Option String)),
      run_main process (none :: rest) = Except.error "UnicodeDecodeError") ∧
    (∀ (process : String → String) (t : String),
      run_main process [some t] = Except.ok [process t]) :=
  ⟨fun _ _ => rfl, fun _ _ => rfl⟩

/-! ### Claim C2: invalid candidates in the validation loop -/

/-- C2: the spec requires that partial or invalid candidate spans are silently
dropped and never crash the processing of a document. A candidate whose
`start_line` is present but not a valid integer makes `int(start)` raise
`ValueError` (flag.py line 231), aborting `insert_flags_by_lines` — while a
candidate with missing line numbers is indeed silently dropped. -/
theorem invalid_candidate_raises :
    insert_flags_by_lines ["a", "b"]
        [JValue.jobj [("start_line", JValue.jstr "abc"), ("end_line", JValue.jint 2),
          ("reason", JValue.jstr "r")]] = Except.error "ValueError" ∧
    collectRanges 2 [JValue.jobj [("reason", JValue.jstr "r")]] = Except.ok [] :=
  ⟨rfl, rfl⟩

/-! ### Claim C3: the chunker on `overlap ≥ chunkSize` -/

/-- Helper for C3: once the running start is at most 0, the slide
`start := end - overlap` with `overlap ≥ chunkSize` never moves the start
forward, so the loop body runs out of any amount of fuel. -/
theorem chunk_lines_aux_diverges (lines : List String) (chunk_size overlap : Int)
    (hcs : 0 < chunk_size) (hlen : chunk_size < (lines.length : Int))
    (hov : chunk_size ≤ overlap) :
    ∀ (fuel : Nat) (start : Int), start ≤ 0 →
      chunk_lines_aux lines chunk_size overlap fuel start = none := by
  intro fuel
  induction fuel with
  | zero => intro start _; rfl
  | succ n ih =>
    intro start hstart
    have h1 : start < (lines.length : Int) := by omega
    have he : min (start + chunk_size) ((lines.length : Int)) = start + chunk_size :=
      min_eq_left (by omega)
    simp only [chunk_lines_aux, if_pos h1, he]
    rw [if_neg (by omega), ih (start + chunk_size - overlap) (by omega)]

/-- C3: the claim states that a caller supplying `overlap ≥ chunkSize` on a
document longer than `chunkSize` makes the chunker fail fast. The code has no
such guard: the loop never terminates (it yields no result for any amount of
fuel), because `start = end - overlap` never advances. -/
theorem chunk_lines_diverges (lines : List String) (chunk_size overlap : Int)
    (fuel : Nat) (hcs : 0 < chunk_size) (hlen : chunk_size < (lines.length : Int))
    (hov : chunk_size ≤ overlap) :
    chunk_lines lines chunk_size overlap fuel = none := by
  unfold chunk_lines
  rw [if_neg (by omega)]
  exact chunk_lines_aux_diverges lines chunk_size overlap hcs hlen hov fuel 0 le_rfl

/-- Witness for C3 at a concrete input: two lines, `chunkSize = 1`,
`overlap = 1`. -/
theorem chunk_lines_diverges_witness :
    (0 : Int) < 1 ∧ (1 : Int) < (2 : Nat) ∧ chunk_lines ["a", "b"] 1 1 37 = none :=
  ⟨by decide, by decide, chunk_lines_diverges ["a", "b"] 1 1 37 (by decide) (by norm_num)
    (by decide)⟩

/-! ### Claim C9: determinism of the annotator -/

/-- C9: `insert_flags_by_lines` consults no ambient state in the embedding —
its output is a function of the `(lines, flagged_ranges)` input alone, so two
runs on the same input produce identical output strings. -/
theorem insert_flags_deterministic (lines₁ lines₂ : List String)
    (fr₁ fr₂ : List JValue) (hl : lines₁ = lines₂) (hf : fr₁ = fr₂) :
    insert_flags_by_lines lines₁ fr₁ = insert_flags_by_lines lines₂ fr₂ := by
  rw [hl, hf]

/-- Witness for C9 at a concrete input. -/
theorem insert_flags_deterministic_witness :
    insert_flags_by_lines ["a"] [] = insert_flags_by_lines ["a"] [] :=
  insert_flags_deterministic ["a"] ["a"] [] [] rfl rfl

/-! ### Claim C10: the summary count versus the annotated body -/

/-- C10: the summary header is built from the raw candidate list before
validation and merging (flag.py line 212), so its count is `len(flagged_ranges)`.
With two candidates that both lack line numbers, the output reports two
flagged items while the body contains no START marker line at all. -/
theorem header_count_exceeds_markers :
    ∃ s, insert_flags_by_lines ["alpha", "beta"]
        [JValue.jobj [("reason", JValue.jstr "r1")], JValue.jobj [("reason", JValue.jstr "r2")]] =
      Except.ok s ∧
      "**Status:** ⚠️ 2 items flagged for review" ∈ pySplitNl s ∧
      (pySplitNl s).filter (fun l => l == START_MARKER) = [] :=
  ⟨_, rfl, by decide, by decide⟩

/-! ### Claim C6: annotator round trip -/

/-- Filtering with a predicate that rejects the inserted element undoes a
`List.insertIdx`. -/
theorem filter_insertIdx (p : α → Bool) (x : α) (hx : p x = false) :
    ∀ (n : Nat) (xs : List α), (List.insertIdx n x xs).filter p = xs.filter p := by
  intro n
  induction n with
  | zero => intro xs; rw [List.insertIdx_zero, List.filter_cons, hx]; simp
  | succ n ih =>
    intro xs
    cases xs with
    | nil => rfl
    | cons b xs => rw [List.insertIdx_succ_cons, List.filter_cons, List.filter_cons, ih]

/-- Filtering with a predicate that rejects the inserted element undoes a
Python `list.insert`. -/
theorem filter_pyInsert (p : α → Bool) (x : α) (hx : p x = false) (i : Int)
    (xs : List α) : (pyInsert xs i x).filter p = xs.filter p :=
  filter_insertIdx p x hx _ xs

/-- Every line the marker-insertion loop adds is a marker line. -/
theorem isMarkerLine_end (r : String) : isMarkerLine (END_MARKER ++ r) = true := by
  have : END_MARKER.data.isPrefixOf (END_MARKER ++ r).data = true := by
    rw [String.data_append, List.isPrefixOf_iff_prefix]
    exact List.prefix_append _ _
  simp [isMarkerLine, this]

/-- Filtering the marker lines out of the inserted body recovers whatever the
same filter gives on the original lines. -/
theorem filter_insertMarkers (merged : List FlagRange) :
    ∀ (acc : List String),
      (insertMarkers acc merged).filter (fun l => !(isMarkerLine l)) =
        acc.filter (fun l => !(isMarkerLine l)) := by
  unfold insertMarkers
  induction merged.reverse with
  | nil => intro acc; rfl
  | cons rng rest ih =>
    intro acc
    rw [List.foldl_cons, ih]
    rw [filter_pyInsert _ _ (by simp [isMarkerLine]) rng.1]
    rw [filter_pyInsert _ _ (by simp [isMarkerLine_end]) (rng.2.1 + 1)]

/-- C6 (amended): inserting any number of merged spans and prepending the
header, then stripping the header lines and every marker line, reproduces the
original line sequence — provided no original line itself looks like a marker
line (a document that already contains a line equal to the START marker, or
beginning with the END marker, loses that line in the strip). -/
theorem annotate_strip_round_trip (header : String) (lines : List String)
    (merged : List FlagRange) (h : ∀ l ∈ lines, isMarkerLine l = false) :
    stripAnnotations header (annotateDoc header lines merged) = lines := by
  unfold stripAnnotations annotateDoc
  rw [List.drop_left, filter_insertMarkers]
  exact List.filter_eq_self.mpr (fun l hl => by rw [h l hl]; rfl)

/-- Witness for C6 at a concrete input: the real zero-flag header, a two-line
document and one merged span. -/
theorem annotate_strip_round_trip_witness :
    (∀ l ∈ ["alpha", "beta"], isMarkerLine l = false) ∧
      stripAnnotations no_flags_header
        (annotateDoc no_flags_header ["alpha", "beta"] [(0, 1, "r")]) = ["alpha", "beta"] :=
  ⟨by decide, annotate_strip_round_trip no_flags_header ["alpha", "beta"] [(0, 1, "r")]
    (by decide)⟩

/-- Counterexample to C6 as stated: for a document whose only line is itself
the START marker text, annotating with zero spans and stripping does not
reproduce the original line sequence — the strip removes the lookalike line. -/
theorem annotate_strip_not_round_trip :
    stripAnnotations no_flags_header
        (annotateDoc no_flags_header ["----PRIVATE (START)----"] []) ≠
      ["----PRIVATE (START)----"] := by
  decide

/-! ### Claim C8: valid JSON that is not a list -/

/-- Length of a Python slice with in-range nonnegative bounds. -/
theorem pySlice_length (xs : List String) (a b : Int) (ha : 0 ≤ a) (hab : a ≤ b)
    (hb : b ≤ (xs.length : Int)) : ((pySlice xs a b).length : Int) = b - a := by
  simp only [pySlice]
  rw [if_neg (by omega), if_neg (by omega), List.length_drop, List.length_take]
  omega

/-- Loop invariant of `chunk_lines_aux` under valid parameters: starting
anywhere inside the document with enough fuel, the loop terminates and emits a
window list that starts at the given offset, whose windows are nonempty, stay
in bounds, chain without gaps, and whose last window ends exactly at the
document length. -/
theorem chunk_lines_aux_spec (lines : List String) (cs ov : Int)
    (hcs : 0 < cs) (hov : 0 ≤ ov) (hlt : ov < cs) :
    ∀ (fuel : Nat) (start : Int), 0 ≤ start → start < (lines.length : Int) →
      ((lines.length : Int) - start).toNat < fuel →
      ∃ res, chunk_lines_aux lines cs ov fuel start = some res ∧
        (∃ p0 t, res = p0 :: t ∧ p0.1 = start) ∧
        (∀ p ∈ res, 0 ≤ p.1 ∧ p.1 + (p.2.length : Int) ≤ (lines.length : Int) ∧
          0 < p.2.length) ∧
        List.Chain' (fun a b => a.1 < b.1 ∧ b.1 ≤ a.1 + (a.2.length : Int)) res ∧
        (∃ pl, res.getLast? = some pl ∧
          pl.1 + (pl.2.length : Int) = (lines.length : Int)) := by
  intro fuel
  induction fuel with
  | zero => intro start _ _ h2; omega
  | succ n ih =>
    intro start h0 h1 h2
    simp only [chunk_lines_aux, if_pos h1]
    by_cases hend : (lines.length : Int) ≤ min (start + cs) (lines.length : Int)
    · rw [if_pos hend]
      set w := pySlice lines start (min (start + cs) ((lines.length : Int))) with hw
      have hlen : ((w.length : Nat) : Int) = (lines.length : Int) - start := by
        rw [hw, min_eq_right (by omega)]
        exact pySlice_length lines start _ h0 (by omega) le_rfl
      refine ⟨_, rfl, ⟨_, _, rfl, rfl⟩, ?_, List.chain'_singleton _, ?_⟩
      · intro p hp
        rw [List.mem_singleton] at hp
        subst hp
        refine ⟨h0, ?_, ?_⟩
        · show start + ((w.length : Nat) : Int) ≤ (lines.length : Int)
          omega
        · show 0 < w.length
          omega
      · refine ⟨(start, w), by simp, ?_⟩
        show start + ((w.length : Nat) : Int) = (lines.length : Int)
        omega
    · rw [if_neg hend]
      have hmin : min (start + cs) ((lines.length : Int)) = start + cs :=
        min_eq_left (by omega)
      rw [hmin]
      obtain ⟨rest, hrest, ⟨q0, t0, hq0, hq0s⟩, hmem, hchain, pl, hpl, hplend⟩ :=
        ih (start + cs - ov) (by omega) (by omega) (by omega)
      rw [hrest]
      set w := pySlice lines start (start + cs) with hw
      have hwlen : ((w.length : Nat) : Int) = cs := by
        rw [hw]
        have := pySlice_length lines start (start + cs) h0 (by omega) (by omega)
        omega
      refine ⟨_, rfl, ⟨_, _, rfl, rfl⟩, ?_, ?_, ?_⟩
      · intro p hp
        rcases List.mem_cons.mp hp with hp | hp
        · subst hp
          refine ⟨h0, ?_, ?_⟩
          · show start + ((w.length : Nat) : Int) ≤ (lines.length : Int)
            omega
          · show 0 < w.length
            omega
        · exact hmem p hp
      · subst hq0
        refine List.chain'_cons.mpr ⟨⟨?_, ?_⟩, hchain⟩
        · show start < q0.1
          omega
        · show q0.1 ≤ start + ((w.length : Nat) : Int)
          omega
      · subst hq0
        exact ⟨pl, by rw [List.getLast?_cons_cons]; exact hpl, hplend⟩

/-- From a gap-free chain of windows whose head starts at or before `k` and
whose last window ends beyond `k`, some window contains `k`. -/
theorem cover_of_chain :
    ∀ (res : List (Int × List String)) (k : Int),
      List.Chain' (fun a b => a.1 < b.1 ∧ b.1 ≤ a.1 + (a.2.length : Int)) res →
      ∀ (p0 : Int × List String), res.head? = some p0 → p0.1 ≤ k →
      ∀ (pl : Int × List String), res.getLast? = some pl →
        k < pl.1 + (pl.2.length : Int) →
      ∃ p ∈ res, p.1 ≤ k ∧ k < p.1 + (p.2.length : Int) := by
  intro res
  induction res with
  | nil => intro k _ p0 hh; cases hh
  | cons p t ih =>
    intro k hch p0 hh hk0 pl hl hk1
    rw [show p0 = p from by cases hh; rfl] at hk0
    cases t with
    | nil =>
      rw [show pl = p from by cases hl; rfl] at hk1
      exact ⟨p, List.mem_singleton.mpr rfl, hk0, hk1⟩
    | cons q t2 =>
      obtain ⟨⟨_, hlink⟩, hch2⟩ := List.chain'_cons.mp hch
      by_cases hcov : k < p.1 + (p.2.length : Int)
      · exact ⟨p, List.mem_cons_self _ _, hk0, hcov⟩
      · have hl2 : (q :: t2).getLast? = some pl := by
          rw [List.getLast?_cons_cons] at hl
          exact hl
        obtain ⟨r, hr, hr1, hr2⟩ := ih k hch2 q rfl (by omega) pl hl2 hk1
        exact ⟨r, List.mem_cons_of_mem _ hr, hr1, hr2⟩

/-- C4: for any document and valid parameters (`0 < chunkSize`,
`0 ≤ overlap < chunkSize`), the chunker terminates and its windows are
strictly ordered by start offset, stay within bounds, jointly cover every line
index with no gaps, and the last window ends exactly at the document length;
when the document fits in one chunk the result is the single window
`(0, lines)`. -/
theorem chunk_lines_spec (lines : List String) (cs ov : Int)
    (hcs : 0 < cs) (hov : 0 ≤ ov) (hlt : ov < cs) :
    ∃ res, chunk_lines lines cs ov (lines.length + 1) = some res ∧
      ((lines.length : Int) ≤ cs → res = [(0, lines)]) ∧
      List.Chain' (fun a b => a.1 < b.1) res ∧
      (∀ p ∈ res, 0 ≤ p.1 ∧ p.1 + (p.2.length : Int) ≤ (lines.length : Int)) ∧
      (∀ k : Int, 0 ≤ k → k < (lines.length : Int) →
        ∃ p ∈ res, p.1 ≤ k ∧ k < p.1 + (p.2.length : Int)) ∧
      (∃ pl, res.getLast? = some pl ∧
        pl.1 + (pl.2.length : Int) = (lines.length : Int)) := by
  unfold chunk_lines
  by_cases hsmall : (lines.length : Int) ≤ cs
  · rw [if_pos hsmall]
    refine ⟨[(0, lines)], rfl, fun _ => rfl, List.chain'_singleton _, ?_, ?_, ?_⟩
    · intro p hp
      rw [List.mem_singleton] at hp
      subst hp
      exact ⟨le_refl 0, by simp⟩
    · intro k hk0 hk1
      exact ⟨(0, lines), List.mem_singleton.mpr rfl, hk0, by simpa using hk1⟩
    · exact ⟨(0, lines), rfl, by simp⟩
  · rw [if_neg hsmall]
    obtain ⟨res, hres, ⟨p0, t0, hsplit, hp0s⟩, hmem, hchain, pl, hpl, hplend⟩ :=
      chunk_lines_aux_spec lines cs ov hcs hov hlt (lines.length + 1) 0 le_rfl
        (by omega) (by omega)
    refine ⟨res, hres, fun h => absurd h hsmall, ?_, ?_, ?_, pl, hpl, hplend⟩
    · exact List.Chain'.imp (fun a b hab => hab.1) hchain
    · exact fun p hp => ⟨(hmem p hp).1, (hmem p hp).2.1⟩
    · intro k hk0 hk1
      refine cover_of_chain res k hchain p0 (by rw [hsplit]; rfl) (by omega) pl hpl
        (by omega)

/-- Witness for C4 at a concrete input: five lines, `chunkSize = 3`,
`overlap = 1`. -/
theorem chunk_lines_spec_witness :
    (0 : Int) < 3 ∧ (0 : Int) ≤ 1 ∧ (1 : Int) < 3 ∧
      ∃ res, chunk_lines ["a", "b", "c", "d", "e"] 3 1 6 = some res ∧
        (((["a", "b", "c", "d", "e"] : List String).length : Int) ≤ 3 →
          res = [(0, ["a", "b", "c", "d", "e"])]) ∧
        List.Chain' (fun a b => a.1 < b.1) res ∧
        (∀ p ∈ res, 0 ≤ p.1 ∧
          p.1 + (p.2.length : Int) ≤ ((["a", "b", "c", "d", "e"] : List String).length : Int)) ∧
        (∀ k : Int, 0 ≤ k → k < ((["a", "b", "c", "d", "e"] : List String).length : Int) →
          ∃ p ∈ res, p.1 ≤ k ∧ k < p.1 + (p.2.length : Int)) ∧
        (∃ pl, res.getLast? = some pl ∧
          pl.1 + (pl.2.length : Int) = ((["a", "b", "c", "d", "e"] : List String).length : Int)) :=
  ⟨by decide, by decide, by decide,
    chunk_lines_spec ["a", "b", "c", "d", "e"] 3 1 (by decide) (by decide) (by decide)⟩

/-! ### Claim C5: sorting and merging resolved spans -/

/-- The tuple order implies the start order. -/
theorem pyRangeLe_le_start (a b : FlagRange) (h : pyRangeLe a b = true) : a.1 ≤ b.1 := by
  simp only [pyRangeLe, Bool.or_eq_true, Bool.and_eq_true, decide_eq_true_eq] at h
  rcases h with h | ⟨h, _⟩ <;> omega

/-- Transitivity of the Python tuple comparison. -/
theorem pyRangeLe_trans (a b c : FlagRange) (h1 : pyRangeLe a b = true)
    (h2 : pyRangeLe b c = true) : pyRangeLe a c = true := by
  simp only [pyRangeLe, Bool.or_eq_true, Bool.and_eq_true, decide_eq_true_eq] at h1 h2 ⊢
  rcases h1 with h1 | ⟨ha, h1⟩
  · rcases h2 with h2 | ⟨hb, h2⟩
    · left; omega
    · left; omega
  · rcases h2 with h2 | ⟨hb, h2⟩
    · left; omega
    · refine Or.inr ⟨by omega, ?_⟩
      rcases h1 with h1 | ⟨ha2, h1⟩
      · rcases h2 with h2 | ⟨hb2, h2⟩
        · left; omega
        · left; omega
      · rcases h2 with h2 | ⟨hb2, h2⟩
        · left; omega
        · exact Or.inr ⟨by omega, le_trans h1 h2⟩

/-- Totality of the Python tuple comparison. -/
theorem pyRangeLe_total (a b : FlagRange) : (pyRangeLe a b || pyRangeLe b a) = true := by
  simp only [Bool.or_eq_true, pyRangeLe, Bool.and_eq_true, decide_eq_true_eq]
  rcases lt_trichotomy a.1 b.1 with h | h | h
  · exact Or.inl (Or.inl h)
  · rcases lt_trichotomy a.2.1 b.2.1 with h2 | h2 | h2
    · exact Or.inl (Or.inr ⟨h, Or.inl h2⟩)
    · rcases le_total a.2.2 b.2.2 with h3 | h3
      · exact Or.inl (Or.inr ⟨h, Or.inr ⟨h2, h3⟩⟩)
      · exact Or.inr (Or.inr ⟨h.symm, Or.inr ⟨h2.symm, h3⟩⟩)
    · exact Or.inr (Or.inr ⟨h.symm, Or.inl h2⟩)
  · exact Or.inr (Or.inl h)

/-- Coverage for a cons cell splits into the head range and the rest. -/
theorem covers_cons (x : FlagRange) (l : List FlagRange) (k : Int) :
    Covers (x :: l) k ↔ (x.1 ≤ k ∧ k ≤ x.2.1) ∨ Covers l k := by
  constructor
  · rintro ⟨sp, hsp, h⟩
    rcases List.mem_cons.mp hsp with rfl | hsp2
    · exact Or.inl h
    · exact Or.inr ⟨sp, hsp2, h⟩
  · rintro (h | ⟨sp, hsp, h⟩)
    · exact ⟨x, List.mem_cons_self _ _, h⟩
    · exact ⟨sp, List.mem_cons_of_mem _ hsp, h⟩

/-- Invariant of the merge loop: starting from a running span and a start-sorted
tail of well-formed ranges that all start at or after the running start, the
output starts where the running span starts, its spans are separated by more
than one line, are well formed, and cover exactly the running span union the
tail. -/
theorem mergeRangesAux_spec :
    ∀ (rest : List FlagRange) (c1 c2 : Int) (cr : String),
      c1 ≤ c2 →
      (∀ sp ∈ rest, sp.1 ≤ sp.2.1) →
      (∀ sp ∈ rest, c1 ≤ sp.1) →
      List.Pairwise (fun a b => a.1 ≤ b.1) rest →
      (∃ h t, mergeRangesAux (c1, c2, cr) rest = h :: t ∧ h.1 = c1) ∧
      List.Chain' (fun a b => a.2.1 + 1 < b.1) (mergeRangesAux (c1, c2, cr) rest) ∧
      (∀ sp ∈ mergeRangesAux (c1, c2, cr) rest, sp.1 ≤ sp.2.1) ∧
      (∀ k, Covers (mergeRangesAux (c1, c2, cr) rest) k ↔
        ((c1 ≤ k ∧ k ≤ c2) ∨ Covers rest k)) := by
  intro rest
  induction rest with
  | nil =>
    intro c1 c2 cr hc _ _ _
    rw [show mergeRangesAux (c1, c2, cr) [] = [(c1, c2, cr)] from rfl]
    refine ⟨⟨(c1, c2, cr), [], rfl, rfl⟩, List.chain'_singleton _, ?_, ?_⟩
    · intro sp hsp
      rw [List.mem_singleton] at hsp
      subst hsp
      exact hc
    · intro k
      rw [covers_cons]
  | cons x rest2 ih =>
    intro c1 c2 cr hc hwf hstarts hpair
    obtain ⟨s, e, r⟩ := x
    have hse : s ≤ e := hwf _ (List.mem_cons_self _ _)
    have hcs : c1 ≤ s := hstarts _ (List.mem_cons_self _ _)
    have hwf2 : ∀ sp ∈ rest2, sp.1 ≤ sp.2.1 :=
      fun sp hsp => hwf sp (List.mem_cons_of_mem _ hsp)
    have hpair2 : List.Pairwise (fun a b => a.1 ≤ b.1) rest2 :=
      (List.pairwise_cons.mp hpair).2
    have hheadle : ∀ sp ∈ rest2, s ≤ sp.1 :=
      fun sp hsp => (List.pairwise_cons.mp hpair).1 sp hsp
    by_cases hmerge : s ≤ c2 + 1
    · rw [show mergeRangesAux (c1, c2, cr) ((s, e, r) :: rest2) =
        mergeRangesAux (c1, max c2 e, combineReason cr r) rest2 from by
          simp only [mergeRangesAux]; rw [if_pos hmerge]]
      obtain ⟨hhead, hchain, hwfo, hcov⟩ :=
        ih c1 (max c2 e) (combineReason cr r) (by omega) hwf2
          (fun sp hsp => hstarts sp (List.mem_cons_of_mem _ hsp)) hpair2
      refine ⟨hhead, hchain, hwfo, ?_⟩
      intro k
      rw [hcov k, covers_cons]
      constructor
      · rintro (⟨hk1, hk2⟩ | h)
        · by_cases hk3 : k ≤ c2
          · exact Or.inl ⟨hk1, hk3⟩
          · refine Or.inr (Or.inl ⟨show s ≤ k by omega, show k ≤ e by omega⟩)
        · exact Or.inr (Or.inr h)
      · rintro (⟨hk1, hk2⟩ | ⟨hk1, hk2⟩ | h)
        · exact Or.inl ⟨hk1, by omega⟩
        · have hk1' : s ≤ k := hk1
          have hk2' : k ≤ e := hk2
          exact Or.inl ⟨by omega, by omega⟩
        · exact Or.inr h
    · rw [show mergeRangesAux (c1, c2, cr) ((s, e, r) :: rest2) =
        (c1, c2, cr) :: mergeRangesAux (s, e, r) rest2 from by
          simp only [mergeRangesAux]; rw [if_neg hmerge]]
      obtain ⟨⟨h, t, hout, hh⟩, hchain2, hwf2o, hcov2⟩ :=
        ih s e r hse hwf2 hheadle hpair2
      refine ⟨⟨(c1, c2, cr), _, rfl, rfl⟩, ?_, ?_, ?_⟩
      · rw [hout]
        refine List.chain'_cons.mpr ⟨?_, by rw [← hout]; exact hchain2⟩
        have hh' : h.1 = s := hh
        show c2 + 1 < h.1
        omega
      · intro sp hsp
        rcases List.mem_cons.mp hsp with rfl | hsp2
        · exact hc
        · exact hwf2o sp hsp2
      · intro k
        rw [covers_cons, hcov2 k, covers_cons]

/-- The merge pass on a start-sorted list of well-formed ranges produces
separated, well-formed output covering the same line indices. -/
theorem mergeRanges_spec (l : List FlagRange)
    (hwf : ∀ sp ∈ l, sp.1 ≤ sp.2.1)
    (hsort : List.Pairwise (fun a b => a.1 ≤ b.1) l) :
    List.Chain' (fun a b => a.2.1 + 1 < b.1) (mergeRanges l) ∧
    (∀ sp ∈ mergeRanges l, sp.1 ≤ sp.2.1) ∧
    (∀ k, Covers (mergeRanges l) k ↔ Covers l k) := by
  cases l with
  | nil =>
    exact ⟨List.chain'_nil, fun sp hsp => absurd hsp (List.not_mem_nil sp), fun k => Iff.rfl⟩
  | cons x rest =>
    obtain ⟨c1, c2, cr⟩ := x
    have hc : c1 ≤ c2 := hwf _ (List.mem_cons_self _ _)
    obtain ⟨_, hchain, hwfo, hcov⟩ :=
      mergeRangesAux_spec rest c1 c2 cr hc
        (fun sp hsp => hwf sp (List.mem_cons_of_mem _ hsp))
        (fun sp hsp => (List.pairwise_cons.mp hsort).1 sp hsp)
        (List.pairwise_cons.mp hsort).2
    refine ⟨hchain, hwfo, ?_⟩
    intro k
    rw [show mergeRanges ((c1, c2, cr) :: rest) = mergeRangesAux (c1, c2, cr) rest from rfl,
      hcov k, covers_cons]

/-- A separation chain on well-formed ranges is in fact pairwise separation. -/
theorem pairwise_sep_of_chain :
    ∀ (l : List FlagRange), (∀ sp ∈ l, sp.1 ≤ sp.2.1) →
      List.Chain' (fun a b => a.2.1 + 1 < b.1) l →
      List.Pairwise (fun a b => a.2.1 + 1 < b.1) l := by
  intro l
  induction l with
  | nil => intro _ _; exact List.Pairwise.nil
  | cons x t ih =>
    intro hwf hch
    cases t with
    | nil => exact List.pairwise_singleton _ _
    | cons y t2 =>
      obtain ⟨hxy, hch2⟩ := List.chain'_cons.mp hch
      have hp2 := ih (fun sp hsp => hwf sp (List.mem_cons_of_mem _ hsp)) hch2
      refine List.Pairwise.cons ?_ hp2
      intro b hb
      rcases List.mem_cons.mp hb with rfl | hb2
      · exact hxy
      · have hyb := (List.pairwise_cons.mp hp2).1 b hb2
        have hywf : y.1 ≤ y.2.1 := hwf y (List.mem_cons_of_mem _ (List.mem_cons_self _ _))
        omega

/-- Coverage only depends on the members of the list. -/
theorem covers_perm {l₁ l₂ : List FlagRange} (h : l₁.Perm l₂) (k : Int) :
    Covers l₁ k ↔ Covers l₂ k := by
  constructor
  · rintro ⟨sp, hsp, hk⟩
    exact ⟨sp, h.mem_iff.mp hsp, hk⟩
  · rintro ⟨sp, hsp, hk⟩
    exact ⟨sp, h.mem_iff.mpr hsp, hk⟩

/-- C5: for any list of resolved spans with `0 ≤ start ≤ end`, the sort-and-
merge step of `insert_flags_by_lines` produces spans in strictly ascending
start order, pairwise non-overlapping with at least one unflagged line between
successive spans, each well formed with nonnegative start, and covering
exactly the union of line indices covered by the input. -/
theorem merge_sorted_disjoint_covers (l : List FlagRange)
    (h : ∀ sp ∈ l, 0 ≤ sp.1 ∧ sp.1 ≤ sp.2.1) :
    List.Pairwise (fun a b => a.1 < b.1) (mergeRanges (l.mergeSort pyRangeLe)) ∧
    List.Pairwise (fun a b => a.2.1 + 1 < b.1) (mergeRanges (l.mergeSort pyRangeLe)) ∧
    (∀ sp ∈ mergeRanges (l.mergeSort pyRangeLe), 0 ≤ sp.1 ∧ sp.1 ≤ sp.2.1) ∧
    (∀ k, Covers (mergeRanges (l.mergeSort pyRangeLe)) k ↔ Covers l k) := by
  have hperm : (l.mergeSort pyRangeLe).Perm l := List.mergeSort_perm l pyRangeLe
  have hwfs : ∀ sp ∈ l.mergeSort pyRangeLe, sp.1 ≤ sp.2.1 :=
    fun sp hsp => (h sp (hperm.mem_iff.mp hsp)).2
  have hsorted : List.Pairwise (fun a b => a.1 ≤ b.1) (l.mergeSort pyRangeLe) :=
    (List.sorted_mergeSort pyRangeLe_trans pyRangeLe_total l).imp
      (fun hab => pyRangeLe_le_start _ _ hab)
  obtain ⟨hchain, hwfo, hcov⟩ := mergeRanges_spec (l.mergeSort pyRangeLe) hwfs hsorted
  have hcovl : ∀ k, Covers (mergeRanges (l.mergeSort pyRangeLe)) k ↔ Covers l k :=
    fun k => (hcov k).trans (covers_perm hperm k)
  have hsep := pairwise_sep_of_chain _ hwfo hchain
  refine ⟨?_, hsep, ?_, hcovl⟩
  · refine List.Pairwise.imp_of_mem ?_ hsep
    intro a b ha _ hab
    have hawf := hwfo a ha
    omega
  · intro sp hsp
    have hwfsp := hwfo sp hsp
    have hstart : 0 ≤ sp.1 := by
      have hcovsp : Covers (mergeRanges (l.mergeSort pyRangeLe)) sp.1 :=
        ⟨sp, hsp, le_refl _, hwfsp⟩
      obtain ⟨inp, hinp, hik, _⟩ := (hcovl sp.1).mp hcovsp
      have := (h inp hinp).1
      omega
    exact ⟨hstart, hwfsp⟩

/-- Witness for C5 at a concrete input: the overlapping spans `(5,10)` and
`(9,14)` from two windows. -/
theorem merge_sorted_disjoint_covers_witness :
    (∀ sp ∈ [((5 : Int), (10 : Int), "a"), ((9 : Int), (14 : Int), "b")],
      0 ≤ sp.1 ∧ sp.1 ≤ sp.2.1) ∧
    (List.Pairwise (fun a b => a.1 < b.1)
      (mergeRanges (([((5 : Int), (10 : Int), "a"), ((9 : Int), (14 : Int), "b")]).mergeSort
        pyRangeLe)) ∧
    List.Pairwise (fun a b => a.2.1 + 1 < b.1)
      (mergeRanges (([((5 : Int), (10 : Int), "a"), ((9 : Int), (14 : Int), "b")]).mergeSort
        pyRangeLe)) ∧
    (∀ sp ∈ mergeRanges (([((5 : Int), (10 : Int), "a"), ((9 : Int), (14 : Int), "b")]).mergeSort
        pyRangeLe), 0 ≤ sp.1 ∧ sp.1 ≤ sp.2.1) ∧
    (∀ k, Covers (mergeRanges (([((5 : Int), (10 : Int), "a"),
        ((9 : Int), (14 : Int), "b")]).mergeSort pyRangeLe)) k ↔
      Covers [((5 : Int), (10 : Int), "a"), ((9 : Int), (14 : Int), "b")] k)) :=
  ⟨by decide, merge_sorted_disjoint_covers
    [((5 : Int), (10 : Int), "a"), ((9 : Int), (14 : Int), "b")] (by decide)⟩

/-! ### Claim C7: clamping of resolved and merged spans -/

/-- Destructuring of a successful `Except` bind. -/
theorem exceptBind_ok {α β : Type} (x : Except String α) (f : α → Except String β)
    (b : β) (h : x.bind f = .ok b) : ∃ a, x = .ok a ∧ f a = .ok b := by
  cases x with
  | error e => exact absurd h (by simp [Except.bind])
  | ok a => exact ⟨a, rfl, h⟩

/-- Shape of a successful resolution: the resolved range is exactly the
clamped pair computed from the two `int(...)` conversions. -/
theorem resolveEntry_ok_some (numLines : Nat) (entry : JValue) (rng : FlagRange)
    (h : resolveEntry numLines entry = .ok (some rng)) :
    ∃ sv ev s e reason,
      pyDictGet entry "start_line" = .ok (some sv) ∧
      pyDictGet entry "end_line" = .ok (some ev) ∧
      pyInt sv = .ok s ∧ pyInt ev = .ok e ∧
      rng = (max 0 (min (s - 1) ((numLines : Int) - 1)),
        max (max 0 (min (s - 1) ((numLines : Int) - 1)))
          (min (e - 1) ((numLines : Int) - 1)), reason) := by
  simp only [resolveEntry, bind, Except.instMonad] at h
  obtain ⟨startv, hA, h⟩ := exceptBind_ok _ _ _ h
  obtain ⟨endv, hB, h⟩ := exceptBind_ok _ _ _ h
  obtain ⟨reasonv, hC, h⟩ := exceptBind_ok _ _ _ h
  obtain ⟨reason, hD, h⟩ := exceptBind_ok _ _ _ h
  cases startv with
  | none =>
    cases endv <;> exact absurd h (by simp [pure, Except.pure])
  | some sv =>
    cases endv with
    | none => exact absurd h (by simp [pure, Except.pure])
    | some ev =>
      obtain ⟨sV, hE, h⟩ := exceptBind_ok _ _ _ h
      obtain ⟨eV, hF, h⟩ := exceptBind_ok _ _ _ h
      simp only [pure, Except.pure, Except.ok.injEq, Option.some.injEq] at h
      exact ⟨sv, ev, sV, eV, reason, hA, hB, hE, hF, h.symm⟩

/-- Bounds are preserved by the sort-and-merge pass. -/
theorem merged_bounds (l : List FlagRange) (lo hi : Int)
    (h : ∀ sp ∈ l, lo ≤ sp.1 ∧ sp.1 ≤ sp.2.1 ∧ sp.2.1 ≤ hi) :
    ∀ sp ∈ mergeRanges (l.mergeSort pyRangeLe),
      lo ≤ sp.1 ∧ sp.1 ≤ sp.2.1 ∧ sp.2.1 ≤ hi := by
  have hperm : (l.mergeSort pyRangeLe).Perm l := List.mergeSort_perm l pyRangeLe
  have hwfs : ∀ sp ∈ l.mergeSort pyRangeLe, sp.1 ≤ sp.2.1 :=
    fun sp hsp => (h sp (hperm.mem_iff.mp hsp)).2.1
  have hsorted : List.Pairwise (fun a b => a.1 ≤ b.1) (l.mergeSort pyRangeLe) :=
    (List.sorted_mergeSort pyRangeLe_trans pyRangeLe_total l).imp
      (fun hab => pyRangeLe_le_start _ _ hab)
  obtain ⟨hchain, hwfo, hcov⟩ := mergeRanges_spec (l.mergeSort pyRangeLe) hwfs hsorted
  intro sp hsp
  have hwfsp := hwfo sp hsp
  obtain ⟨i1, hi1, hi1a, hi1b⟩ :=
    (covers_perm hperm sp.1).mp ((hcov sp.1).mp ⟨sp, hsp, le_refl _, hwfsp⟩)
  obtain ⟨i2, hi2, hi2a, hi2b⟩ :=
    (covers_perm hperm sp.2.1).mp ((hcov sp.2.1).mp ⟨sp, hsp, hwfsp, le_refl _⟩)
  have hb1 := h i1 hi1
  have hb2 := h i2 hi2
  exact ⟨by omega, hwfsp, by omega⟩

/-- The validation loop only emits ranges that come from a successful
resolution. -/
theorem collectRanges_mem (numLines : Nat) :
    ∀ (flagged : List JValue) (ranges : List FlagRange),
      collectRanges numLines flagged = .ok ranges →
      ∀ sp ∈ ranges, ∃ entry, resolveEntry numLines entry = .ok (some sp) := by
  intro flagged
  induction flagged with
  | nil =>
    intro ranges h sp hsp
    simp only [collectRanges] at h
    cases h
    cases hsp
  | cons entry rest ih =>
    intro ranges h sp hsp
    simp only [collectRanges, bind, Except.instMonad] at h
    obtain ⟨r, hr, h⟩ := exceptBind_ok _ _ _ h
    obtain ⟨tail, htail, h⟩ := exceptBind_ok _ _ _ h
    cases r with
    | none =>
      simp only [pure, Except.pure, Except.ok.injEq] at h
      subst h
      exact ih tail htail sp hsp
    | some rng =>
      simp only [pure, Except.pure, Except.ok.injEq] at h
      subst h
      rcases List.mem_cons.mp hsp with rfl | hsp2
      · exact ⟨entry, hr⟩
      · exact ih tail htail sp hsp2

/-- C7: for a nonempty document, (1) every successfully resolved candidate is
clamped into bounds, `0 ≤ start ≤ end ≤ lineCount − 1`; (2) a candidate whose
`end_line` value exceeds the line count resolves with its end at the last line
index; (3) every range the validation loop emits, and every merged span
obtained from them by the sort-and-merge pass, satisfies the same bounds. -/
theorem resolver_clamps :
    (∀ (numLines : Nat) (entry : JValue) (rng : FlagRange), 1 ≤ numLines →
      resolveEntry numLines entry = .ok (some rng) →
      0 ≤ rng.1 ∧ rng.1 ≤ rng.2.1 ∧ rng.2.1 ≤ (numLines : Int) - 1) ∧
    (∀ (numLines : Nat) (entry : JValue) (rng : FlagRange) (ev : JValue) (e : Int),
      1 ≤ numLines →
      pyDictGet entry "end_line" = .ok (some ev) → pyInt ev = .ok e →
      (numLines : Int) < e →
      resolveEntry numLines entry = .ok (some rng) →
      rng.2.1 = (numLines : Int) - 1) ∧
    (∀ (numLines : Nat) (flagged : List JValue) (ranges : List FlagRange),
      1 ≤ numLines → collectRanges numLines flagged = .ok ranges →
      (∀ sp ∈ ranges, 0 ≤ sp.1 ∧ sp.1 ≤ sp.2.1 ∧ sp.2.1 ≤ (numLines : Int) - 1) ∧
      (∀ sp ∈ mergeRanges (ranges.mergeSort pyRangeLe),
        0 ≤ sp.1 ∧ sp.1 ≤ sp.2.1 ∧ sp.2.1 ≤ (numLines : Int) - 1)) := by
  have part1 : ∀ (numLines : Nat) (entry : JValue) (rng : FlagRange), 1 ≤ numLines →
      resolveEntry numLines entry = .ok (some rng) →
      0 ≤ rng.1 ∧ rng.1 ≤ rng.2.1 ∧ rng.2.1 ≤ (numLines : Int) - 1 := by
    intro numLines entry rng hn h
    obtain ⟨sv, ev, sV, eV, reason, _, _, _, _, hrng⟩ :=
      resolveEntry_ok_some numLines entry rng h
    subst hrng
    refine ⟨?_, ?_, ?_⟩
    · show (0 : Int) ≤ max 0 (min (sV - 1) ((numLines : Int) - 1))
      omega
    · show max 0 (min (sV - 1) ((numLines : Int) - 1)) ≤
        max (max 0 (min (sV - 1) ((numLines : Int) - 1)))
          (min (eV - 1) ((numLines : Int) - 1))
      omega
    · show max (max 0 (min (sV - 1) ((numLines : Int) - 1)))
          (min (eV - 1) ((numLines : Int) - 1)) ≤ (numLines : Int) - 1
      omega
  refine ⟨part1, ?_, ?_⟩
  · intro numLines entry rng ev e hn hev he hbig h
    obtain ⟨sv, ev', sV, eV, reason, hA, hB, hE, hF, hrng⟩ :=
      resolveEntry_ok_some numLines entry rng h
    have hev' : ev' = ev := by
      rw [hB] at hev
      exact (Option.some.injEq _ _ ▸ (Except.ok.injEq _ _ ▸ hev)).symm ▸ rfl
    subst hev'
    have heq : eV = e := by
      rw [hF] at he
      cases he
      rfl
    subst heq
    subst hrng
    show max (max 0 (min (sV - 1) ((numLines : Int) - 1)))
        (min (eV - 1) ((numLines : Int) - 1)) = (numLines : Int) - 1
    omega
  · intro numLines flagged ranges hn h
    have hmem := collectRanges_mem numLines flagged ranges h
    have hbounds : ∀ sp ∈ ranges, 0 ≤ sp.1 ∧ sp.1 ≤ sp.2.1 ∧
        sp.2.1 ≤ (numLines : Int) - 1 := by
      intro sp hsp
      obtain ⟨entry, hentry⟩ := hmem sp hsp
      exact part1 numLines entry sp hn hentry
    exact ⟨hbounds, merged_bounds ranges 0 ((numLines : Int) - 1) hbounds⟩

/-- Witness for C7 at a concrete input: three lines, a candidate whose
`end_line` of 99 exceeds the document, resolving to end index 2. -/
theorem resolver_clamps_witness :
    1 ≤ 3 ∧
    (((0 : Int), (2 : Int), "r") : FlagRange).2.1 = ((3 : Nat) : Int) - 1 ∧
    (0 ≤ (((0 : Int), (2 : Int), "r") : FlagRange).1 ∧
      (((0 : Int), (2 : Int), "r") : FlagRange).1 ≤
        (((0 : Int), (2 : Int), "r") : FlagRange).2.1 ∧
      (((0 : Int), (2 : Int), "r") : FlagRange).2.1 ≤ ((3 : Nat) : Int) - 1) :=
  ⟨by decide,
    resolver_clamps.2.1 3
      (JValue.jobj [("start_line", JValue.jint 1), ("end_line", JValue.jint 99),
        ("reason", JValue.jstr "r")])
      ((0 : Int), (2 : Int), "r") (JValue.jint 99) 99 (by decide) rfl rfl (by decide) rfl,
    resolver_clamps.1 3
      (JValue.jobj [("start_line", JValue.jint 1), ("end_line", JValue.jint 99),
        ("reason", JValue.jstr "r")])
      ((0 : Int), (2 : Int), "r") (by decide) rfl⟩
